import Mathlib

/-!
Shallow embedding of the ranking logic of `select-start-apps`.

The embedded code:
* `processMonthlyRanks` and `processYearlyRanks` from
  `src/components/Leaderboard.tsx` (lines 319-370): sorting leaderboard
  entries and assigning 1-based competition ranks with tie handling.
* the completion-percentage computation and response assembly of
  `src/pages/api/monthly-leaderboard.ts` and the filter/sort/slice response
  assembly of `src/pages/api/yearly-leaderboard.ts`.

Modelling conventions: JavaScript numbers are modelled as `ℚ`; optional
fields of the `LeaderboardEntry` interface are `Option` values, and the
`|| 0` coercion of the source is `Option.getD _ 0`; `Array.prototype.sort`
with a consistent comparator is a stable sort by the comparator's preorder,
modelled by `List.insertionSort` (stable for insertion into the sorted
tail); `toFixed(2)` followed by `parseFloat` is rounding to two decimals
over `ℚ`.
-/

/-- The `LeaderboardEntry` interface of `Leaderboard.tsx`.  Fields that the
TypeScript interface marks optional (`?:`) are `Option` values; `rank` is
optional because input records arrive unranked. -/
structure LeaderboardEntry where
  username : String
  profileImage : String := ""
  profileUrl : String := ""
  completedAchievements : Option ℚ := none
  totalAchievements : Option ℚ := none
  completionPercentage : Option ℚ := none
  hasBeatenGame : Option Bool := none
  points : Option ℚ := none
  rank : Option ℕ := none
deriving DecidableEq

/-- The coerced completion percentage `entry.completionPercentage || 0`. -/
def mPct (e : LeaderboardEntry) : ℚ := e.completionPercentage.getD 0

/-- The coerced achievement count `entry.completedAchievements || 0`. -/
def mAch (e : LeaderboardEntry) : ℚ := e.completedAchievements.getD 0

/-- The coerced point total `entry.points || 0`. -/
def yPts (e : LeaderboardEntry) : ℚ := e.points.getD 0

/-- `a` sorts before-or-equal `b` under the monthly comparator
`(b.completionPercentage || 0) - (a.completionPercentage || 0)`, falling back
to `(b.completedAchievements || 0) - (a.completedAchievements || 0)`:
exactly the inputs where the comparator returns a value `≤ 0`. -/
def monthlyBefore (a b : LeaderboardEntry) : Prop :=
  mPct b < mPct a ∨ (mPct a = mPct b ∧ mAch b ≤ mAch a)

instance : DecidableRel monthlyBefore := fun a b => by
  unfold monthlyBefore; infer_instance

/-- `a` sorts before-or-equal `b` under the yearly comparator
`(b.points || 0) - (a.points || 0)`: the comparator returns a value `≤ 0`. -/
def yearlyBefore (a b : LeaderboardEntry) : Prop :=
  yPts b ≤ yPts a

instance : DecidableRel yearlyBefore := fun a b => by
  unfold yearlyBefore; infer_instance

instance : IsTotal LeaderboardEntry monthlyBefore where
  total a b := by
    unfold monthlyBefore
    rcases lt_trichotomy (mPct a) (mPct b) with h | h | h
    · exact Or.inr (Or.inl h)
    · rcases le_total (mAch a) (mAch b) with h2 | h2
      · exact Or.inr (Or.inr ⟨h.symm, h2⟩)
      · exact Or.inl (Or.inr ⟨h, h2⟩)
    · exact Or.inl (Or.inl h)

instance : IsTrans LeaderboardEntry monthlyBefore where
  trans a b c hab hbc := by
    unfold monthlyBefore at *
    rcases hab with h1 | ⟨h1, h1'⟩ <;> rcases hbc with h2 | ⟨h2, h2'⟩
    · exact Or.inl (h2.trans h1)
    · exact Or.inl (h2 ▸ h1)
    · exact Or.inl (h1 ▸ h2)
    · exact Or.inr ⟨h1.trans h2, h2'.trans h1'⟩

instance : IsTotal LeaderboardEntry yearlyBefore where
  total a b := le_total (yPts b) (yPts a)

instance : IsTrans LeaderboardEntry yearlyBefore where
  trans _ _ _ hab hbc := le_trans hbc hab

/-- The rank-assignment loop of `processMonthlyRanks`: `idx` is the
zero-based position of the head of the remaining list, `curRank` the mutable
`currentRank`, `prevP`/`prevA` the coerced metrics of the previous sorted
entry (`previousPercentage`/`previousAchievements`). -/
def monthlyRanksAux (idx curRank : ℕ) (prevP prevA : ℚ) :
    List LeaderboardEntry → List LeaderboardEntry
  | [] => []
  | e :: rest =>
    let p := mPct e
    let a := mAch e
    let newRank := if p ≠ prevP ∨ a ≠ prevA then idx + 1 else curRank
    { e with rank := some newRank } ::
      monthlyRanksAux (idx + 1) newRank p a rest

/-- `processMonthlyRanks` of `Leaderboard.tsx`: stable-sort by the monthly
comparator, give the first entry rank 1, and walk the rest with the
mutable `currentRank` / previous-key state. -/
def processMonthlyRanks (entries : List LeaderboardEntry) :
    List LeaderboardEntry :=
  match List.insertionSort monthlyBefore entries with
  | [] => []
  | e :: rest =>
    { e with rank := some 1 } :: monthlyRanksAux 1 1 (mPct e) (mAch e) rest

/-- The rank-assignment map of `processYearlyRanks` for positions `≥ 1`:
`prev` is `sortedEntries[index - 1]`, the *unannotated* entry of the sorted
input array, whose original `rank` field is copied on a tie. -/
def yearlyRanksAux (idx : ℕ) (prev : LeaderboardEntry) :
    List LeaderboardEntry → List LeaderboardEntry
  | [] => []
  | e :: rest =>
    let r : Option ℕ := if yPts e = yPts prev then prev.rank else some (idx + 1)
    { e with rank := r } :: yearlyRanksAux (idx + 1) e rest

/-- `processYearlyRanks` of `Leaderboard.tsx`: stable-sort descending by
`points || 0`; the first entry gets rank 1; a later entry gets
`index + 1` when its points differ from the previous sorted entry's, and
otherwise copies `prevEntry.rank`, the rank field of the previous entry of
the sorted *input* array (not of the already-ranked output). -/
def processYearlyRanks (entries : List LeaderboardEntry) :
    List LeaderboardEntry :=
  match List.insertionSort yearlyBefore entries with
  | [] => []
  | e :: rest => { e with rank := some 1 } :: yearlyRanksAux 1 e rest

/-- A participant record built by the monthly-leaderboard API handler
(`src/pages/api/monthly-leaderboard.ts`).  The handler always computes every
field, so none are optional. -/
structure MonthlyParticipant where
  username : String
  completedAchievements : ℕ
  totalAchievements : ℕ
  completionPercentage : ℚ
deriving DecidableEq

/-- Rounding to two decimal places over `ℚ`, the model of
`parseFloat(x.toFixed(2))` for the nonnegative values the handler feeds it
(`toFixed` rounds to nearest, ties away from zero, which on nonnegative
values agrees with `round`). -/
def round2 (x : ℚ) : ℚ := (round (x * 100) : ℚ) / 100

/-- The guarded completion-percentage computation of the monthly handler:
`numAchievements > 0 ? parseFloat(((completed / numAchievements) * 100).toFixed(2)) : 0`. -/
def computeCompletionPercentage (completed numAchievements : ℕ) : ℚ :=
  if 0 < numAchievements then
    round2 ((completed : ℚ) / (numAchievements : ℚ) * 100)
  else 0

/-- The sort comparator of the monthly handler (`sortedUsers`): descending by
`completionPercentage`, ties descending by `completedAchievements` (the
handler-built records always carry numbers, so no `|| 0` appears there). -/
def apiMonthlyBefore (a b : MonthlyParticipant) : Prop :=
  b.completionPercentage < a.completionPercentage ∨
    (a.completionPercentage = b.completionPercentage ∧
      b.completedAchievements ≤ a.completedAchievements)

instance : DecidableRel apiMonthlyBefore := fun a b => by
  unfold apiMonthlyBefore; infer_instance

instance : IsTotal MonthlyParticipant apiMonthlyBefore where
  total a b := by
    unfold apiMonthlyBefore
    rcases lt_trichotomy a.completionPercentage b.completionPercentage with h | h | h
    · exact Or.inr (Or.inl h)
    · rcases Nat.le_total a.completedAchievements b.completedAchievements with h2 | h2
      · exact Or.inr (Or.inr ⟨h.symm, h2⟩)
      · exact Or.inl (Or.inr ⟨h, h2⟩)
    · exact Or.inl (Or.inl h)

instance : IsTrans MonthlyParticipant apiMonthlyBefore where
  trans a b c hab hbc := by
    unfold apiMonthlyBefore at *
    rcases hab with h1 | ⟨h1, h1'⟩ <;> rcases hbc with h2 | ⟨h2, h2'⟩
    · exact Or.inl (h2.trans h1)
    · exact Or.inl (h2 ▸ h1)
    · exact Or.inl (h1 ▸ h2)
    · exact Or.inr ⟨h1.trans h2, h2'.trans h1'⟩

/-- The `sortedUsers` value of the monthly handler. -/
def sortedMonthlyUsers (results : List MonthlyParticipant) :
    List MonthlyParticipant :=
  List.insertionSort apiMonthlyBefore results

/-- The response body assembled by the monthly handler (the fields the
ranking claims concern). -/
structure MonthlyResponse where
  leaderboard : List MonthlyParticipant
  additionalParticipants : List String
deriving DecidableEq

/-- `leaderboard: sortedUsers.slice(0, 10)` and
`additionalParticipants: sortedUsers.slice(10).map(u => u.username)`. -/
def monthlyLeaderboardResponse (results : List MonthlyParticipant) :
    MonthlyResponse :=
  { leaderboard := (sortedMonthlyUsers results).take 10
    additionalParticipants :=
      ((sortedMonthlyUsers results).drop 10).map MonthlyParticipant.username }

/-- A yearly-leaderboard entry as assembled by
`src/pages/api/yearly-leaderboard.ts` before filtering and sorting; only the
fields the filter, sort and response use are kept (`bonusPointsCount` is the
length of the current-year `bonusPoints` array). -/
structure YearlyUser where
  username : String
  points : ℚ
  achievements : ℚ
  bonusPointsCount : ℕ
deriving DecidableEq

/-- The yearly handler's comparator: descending by `points`. -/
def apiYearlyBefore (a b : YearlyUser) : Prop := b.points ≤ a.points

instance : DecidableRel apiYearlyBefore := fun a b => by
  unfold apiYearlyBefore; infer_instance

instance : IsTotal YearlyUser apiYearlyBefore where
  total a b := le_total b.points a.points

instance : IsTrans YearlyUser apiYearlyBefore where
  trans _ _ _ hab hbc := le_trans hbc hab

/-- The yearly handler's `leaderboard` array:
`.filter(user => user.points > 0 || user.bonusPoints.length > 0).sort((a, b) => b.points - a.points)`. -/
def yearlyLeaderboardList (users : List YearlyUser) : List YearlyUser :=
  List.insertionSort apiYearlyBefore
    (users.filter fun u => 0 < u.points ∨ 0 < u.bonusPointsCount)

/-- The response body assembled by the yearly handler. -/
structure YearlyResponse where
  leaderboard : List YearlyUser
  additionalParticipants : List String
deriving DecidableEq

/-- `leaderboard: leaderboard.slice(0, 10)` and
`additionalParticipants: leaderboard.slice(10).map(u => u.username)`. -/
def yearlyLeaderboardResponse (users : List YearlyUser) : YearlyResponse :=
  { leaderboard := (yearlyLeaderboardList users).take 10
    additionalParticipants :=
      ((yearlyLeaderboardList users).drop 10).map YearlyUser.username }

/-- Forget the rank annotation of an entry. -/
def eraseRank (e : LeaderboardEntry) : LeaderboardEntry := { e with rank := none }

/-- The numeric rank an entry displays (`0` when the rank field is absent). -/
def rankValue (e : LeaderboardEntry) : ℕ := e.rank.getD 0

/-- Replace each missing metric of an entry by an explicit `0`, leaving
present metrics (and every other field) unchanged. -/
def zeroFill (e : LeaderboardEntry) : LeaderboardEntry :=
  { e with completionPercentage := some (mPct e)
           completedAchievements := some (mAch e)
           points := some (yPts e) }

lemma monthlyRanksAux_map_eraseRank (l : List LeaderboardEntry) :
    ∀ idx cur p a, (monthlyRanksAux idx cur p a l).map eraseRank = l.map eraseRank := by
  induction l with
  | nil => intro idx cur p a; rfl
  | cons e rest ih =>
      intro idx cur p a
      simp only [monthlyRanksAux, List.map_cons, ih]
      rfl

lemma yearlyRanksAux_map_eraseRank (l : List LeaderboardEntry) :
    ∀ idx prev, (yearlyRanksAux idx prev l).map eraseRank = l.map eraseRank := by
  induction l with
  | nil => intro idx prev; rfl
  | cons e rest ih =>
      intro idx prev
      simp only [yearlyRanksAux, List.map_cons, ih]
      rfl

lemma processMonthlyRanks_map_eraseRank (l : List LeaderboardEntry) :
    (processMonthlyRanks l).map eraseRank =
      (List.insertionSort monthlyBefore l).map eraseRank := by
  unfold processMonthlyRanks
  cases h : List.insertionSort monthlyBefore l with
  | nil => simp
  | cons e rest =>
      simp only [List.map_cons, monthlyRanksAux_map_eraseRank]
      rfl

lemma processYearlyRanks_map_eraseRank (l : List LeaderboardEntry) :
    (processYearlyRanks l).map eraseRank =
      (List.insertionSort yearlyBefore l).map eraseRank := by
  unfold processYearlyRanks
  cases h : List.insertionSort yearlyBefore l with
  | nil => simp
  | cons e rest =>
      simp only [List.map_cons, yearlyRanksAux_map_eraseRank]
      rfl

lemma mPct_eraseRank (e : LeaderboardEntry) : mPct (eraseRank e) = mPct e := rfl

lemma mAch_eraseRank (e : LeaderboardEntry) : mAch (eraseRank e) = mAch e := rfl

lemma yPts_eraseRank (e : LeaderboardEntry) : yPts (eraseRank e) = yPts e := rfl

/-- Inserting an element that sorts before-or-equal everything already
present puts it at the front, so a list whose elements are pairwise
interchangeable under `r` is left in input order: the stability of the
sort for all-equal keys. -/
lemma insertionSort_of_forall {α : Type} (r : α → α → Prop) [DecidableRel r]
    (l : List α) (h : ∀ x ∈ l, ∀ y ∈ l, r x y) :
    List.insertionSort r l = l := by
  induction l with
  | nil => rfl
  | cons x xs ih =>
      have hxs : List.insertionSort r xs = xs :=
        ih fun a ha b hb => h a (List.mem_cons_of_mem _ ha) b (List.mem_cons_of_mem _ hb)
      simp only [List.insertionSort, hxs]
      cases xs with
      | nil => rfl
      | cons y ys =>
          exact List.orderedInsert_of_le r _
            (h x (List.mem_cons_self _ _) y (List.mem_cons_of_mem _ (List.mem_cons_self _ _)))

lemma monthlyRanksAux_isSome (l : List LeaderboardEntry) :
    ∀ idx cur p a, ∀ e ∈ monthlyRanksAux idx cur p a l, e.rank.isSome = true := by
  induction l with
  | nil => intro idx cur p a e he; cases he
  | cons x rest ih =>
      intro idx cur p a e he
      simp only [monthlyRanksAux, List.mem_cons] at he
      rcases he with he | he
      · subst he; rfl
      · exact ih _ _ _ _ e he

lemma monthlyRanksAux_chain (l : List LeaderboardEntry) :
    ∀ idx cur p a, cur ≤ idx →
      List.Chain (· ≤ ·) cur ((monthlyRanksAux idx cur p a l).map rankValue) := by
  induction l with
  | nil => intro idx cur p a _; exact List.Chain.nil
  | cons e rest ih =>
      intro idx cur p a hcur
      simp only [monthlyRanksAux, List.map_cons]
      by_cases hchg : mPct e ≠ p ∨ mAch e ≠ a
      · simp only [if_pos hchg]
        exact List.Chain.cons (by simpa [rankValue] using Nat.le_succ_of_le hcur)
          (by simpa [rankValue] using ih (idx + 1) (idx + 1) _ _ (le_refl _))
      · simp only [if_neg hchg]
        exact List.Chain.cons (by simp [rankValue])
          (by simpa [rankValue] using ih (idx + 1) cur _ _ (Nat.le_succ_of_le hcur))

/-- C1: the claim says a tied element receives the same rank as the
immediately preceding *output* element.  Evaluating the code at two tied,
unranked yearly entries: the second output copies the preceding *input*
record's absent rank field instead of the preceding output's rank 1, so the
ranks are `[some 1, none]`, not `[some 1, some 1]`. -/
theorem yearly_tie_copies_input_rank_not_output_rank :
    (processYearlyRanks
      [{ username := "p", points := some 50 },
       { username := "q", points := some 50 }]).map LeaderboardEntry.rank =
      [some 1, none] ∧
    (processYearlyRanks
      [{ username := "p", points := some 50 },
       { username := "q", points := some 50 }]).map LeaderboardEntry.rank ≠
      [some 1, some 1] := by decide

/-- C2: the claim (and the spec's own test) says three yearly records with
equal points 50 all get rank 1.  Evaluating the code: the output ranks are
`[some 1, none, none]`, because ties copy the unset rank field of the
preceding sorted input record. -/
theorem yearly_all_tied_does_not_give_all_rank_one :
    (processYearlyRanks
      [{ username := "a", points := some 50 },
       { username := "b", points := some 50 },
       { username := "c", points := some 50 }]).map LeaderboardEntry.rank =
      [some 1, none, none] ∧
    (processYearlyRanks
      [{ username := "a", points := some 50 },
       { username := "b", points := some 50 },
       { username := "c", points := some 50 }]).map LeaderboardEntry.rank ≠
      [some 1, some 1, some 1] := by decide

/-- C3 counterexample: the claim says every output element has an integer
rank set; in yearly mode a tied element of two tied unranked entries ends
with no rank at all. -/
theorem rank_not_always_integer_counterexample :
    ¬ ∀ e ∈ processYearlyRanks
        [{ username := "u", points := some 50 },
         { username := "v", points := some 50 }], e.rank.isSome = true := by
  decide

/-- C3 (amended): each output element is the corresponding sorted input
record with only the rank field changed; ignoring rank, the output is a
permutation of the input and keeps the sorted order; in monthly mode every
rank is an integer (in yearly mode a tied element copies the preceding
input record's rank field, which may be absent). -/
theorem ranks_frame_permutation_and_order :
    ∀ l : List LeaderboardEntry,
      (processMonthlyRanks l).map eraseRank =
          (List.insertionSort monthlyBefore l).map eraseRank ∧
      ((processMonthlyRanks l).map eraseRank).Perm (l.map eraseRank) ∧
      (∀ e ∈ processMonthlyRanks l, e.rank.isSome = true) ∧
      (processYearlyRanks l).map eraseRank =
          (List.insertionSort yearlyBefore l).map eraseRank ∧
      ((processYearlyRanks l).map eraseRank).Perm (l.map eraseRank) := by
  intro l
  refine ⟨processMonthlyRanks_map_eraseRank l, ?_, ?_,
    processYearlyRanks_map_eraseRank l, ?_⟩
  · rw [processMonthlyRanks_map_eraseRank]
    exact (List.perm_insertionSort monthlyBefore l).map eraseRank
  · intro e he
    unfold processMonthlyRanks at he
    cases h : List.insertionSort monthlyBefore l with
    | nil => rw [h] at he; cases he
    | cons x rest =>
        rw [h] at he
        simp only [List.mem_cons] at he
        rcases he with he | he
        · subst he; rfl
        · exact monthlyRanksAux_isSome rest _ _ _ _ e he
  · rw [processYearlyRanks_map_eraseRank]
    exact (List.perm_insertionSort yearlyBefore l).map eraseRank

/-- C3 witness: the amended membership clause applied at a concrete input:
the single monthly entry comes out carrying the integer rank 1. -/
theorem ranks_frame_witness :
    ({ username := "m", completionPercentage := some 100,
       completedAchievements := some 5, rank := some 1 } :
      LeaderboardEntry).rank.isSome = true :=
  (ranks_frame_permutation_and_order
      [{ username := "m", completionPercentage := some 100,
         completedAchievements := some 5 }]).2.2.1 _ (by decide)

/-- C5 counterexample: ranks are claimed non-decreasing along the output,
but in yearly mode a tied element copies the preceding input record's rank
field: with points `[60, 50, 50]` and the middle record carrying rank 1 on
input, the output rank values are `[1, 2, 1]`. -/
theorem yearly_ranks_can_decrease_counterexample :
    ¬ List.Chain' (fun x y => x ≤ y)
        ((processYearlyRanks
          [{ username := "d", points := some 60 },
           { username := "e", points := some 50, rank := some 1 },
           { username := "f", points := some 50 }]).map rankValue) := by
  have h :
      (processYearlyRanks
        [{ username := "d", points := some 60 },
         { username := "e", points := some 50, rank := some 1 },
         { username := "f", points := some 50 }]).map rankValue = [1, 2, 1] := by
    decide
  rw [h]
  simp [List.chain'_cons]

/-- C5 (amended): in monthly mode the rank values are non-decreasing as
position in the output sequence increases. -/
theorem monthly_ranks_nondecreasing :
    ∀ l : List LeaderboardEntry,
      List.Chain' (fun x y => x ≤ y) ((processMonthlyRanks l).map rankValue) := by
  intro l
  unfold processMonthlyRanks
  cases h : List.insertionSort monthlyBefore l with
  | nil => simp
  | cons e rest =>
      simp only [List.map_cons]
      have hc := monthlyRanksAux_chain rest 1 1 (mPct e) (mAch e) (le_refl 1)
      simpa [rankValue, List.Chain'] using hc

/-- C8: both modes return `[]` on the empty list, and the functions are
total: they return a full output list of the input's length for every input. -/
theorem empty_input_and_totality :
    processMonthlyRanks [] = [] ∧ processYearlyRanks [] = [] ∧
    ∀ l : List LeaderboardEntry,
      (processMonthlyRanks l).length = l.length ∧
      (processYearlyRanks l).length = l.length := by
  refine ⟨rfl, rfl, fun l => ⟨?_, ?_⟩⟩
  · calc (processMonthlyRanks l).length
        = ((processMonthlyRanks l).map eraseRank).length :=
          (List.length_map _ _).symm
      _ = ((List.insertionSort monthlyBefore l).map eraseRank).length := by
          rw [processMonthlyRanks_map_eraseRank]
      _ = (List.insertionSort monthlyBefore l).length := List.length_map _ _
      _ = l.length := (List.perm_insertionSort monthlyBefore l).length_eq
  · calc (processYearlyRanks l).length
        = ((processYearlyRanks l).map eraseRank).length :=
          (List.length_map _ _).symm
      _ = ((List.insertionSort yearlyBefore l).map eraseRank).length := by
          rw [processYearlyRanks_map_eraseRank]
      _ = (List.insertionSort yearlyBefore l).length := List.length_map _ _
      _ = l.length := (List.perm_insertionSort yearlyBefore l).length_eq

/-- The spec's monthly example: completion keys `[(100,5), (100,5), (90,1)]`
give competition ranks `[1, 1, 3]`. -/
lemma monthly_competition_ranking_example :
    (processMonthlyRanks
      [{ username := "a", completionPercentage := some 100,
         completedAchievements := some 5 },
       { username := "b", completionPercentage := some 100,
         completedAchievements := some 5 },
       { username := "c", completionPercentage := some 90,
         completedAchievements := some 1 }]).map LeaderboardEntry.rank =
    [some 1, some 1, some 3] := by decide

/-- C4: the output of both rank functions is sorted descending by the
primary metric, with monthly ties further sorted descending by the
secondary metric (metrics read with the `|| 0` coercion). -/
theorem outputs_sorted_descending :
    ∀ l : List LeaderboardEntry,
      List.Pairwise
        (fun a b => mPct b ≤ mPct a ∧ (mPct a = mPct b → mAch b ≤ mAch a))
        (processMonthlyRanks l) ∧
      List.Pairwise (fun a b => yPts b ≤ yPts a) (processYearlyRanks l) := by
  intro l
  constructor
  · have hs : List.Pairwise monthlyBefore (List.insertionSort monthlyBefore l) :=
      List.sorted_insertionSort monthlyBefore l
    have hR :
        List.Pairwise
          (fun a b => mPct b ≤ mPct a ∧ (mPct a = mPct b → mAch b ≤ mAch a))
          (List.insertionSort monthlyBefore l) := by
      refine hs.imp ?_
      intro a b hab
      rcases hab with h | ⟨h, h'⟩
      · exact ⟨le_of_lt h, fun he => absurd (he ▸ h) (lt_irrefl _)⟩
      · exact ⟨le_of_eq h.symm, fun _ => h'⟩
    have hmap :
        List.Pairwise
          (fun a b => mPct b ≤ mPct a ∧ (mPct a = mPct b → mAch b ≤ mAch a))
          ((processMonthlyRanks l).map eraseRank) := by
      rw [processMonthlyRanks_map_eraseRank]
      exact List.pairwise_map.mpr hR
    exact List.pairwise_map.mp hmap
  · have hs : List.Pairwise yearlyBefore (List.insertionSort yearlyBefore l) :=
      List.sorted_insertionSort yearlyBefore l
    have hmap :
        List.Pairwise (fun a b => yPts b ≤ yPts a)
          ((processYearlyRanks l).map eraseRank) := by
      rw [processYearlyRanks_map_eraseRank]
      exact List.pairwise_map.mpr hs
    exact List.pairwise_map.mp hmap

/-- C6: replacing every missing metric of a record by an explicit `0`
(leaving its other fields alone) changes neither the sort comparators nor
the tie-detection keys used by the two rank functions: missing metrics are
treated as the number zero in both comparisons. -/
theorem missing_metrics_compare_as_zero :
    ∀ a e : LeaderboardEntry,
      (mPct (zeroFill e) = mPct e ∧ mAch (zeroFill e) = mAch e ∧
        yPts (zeroFill e) = yPts e) ∧
      (monthlyBefore (zeroFill e) a ↔ monthlyBefore e a) ∧
      (monthlyBefore a (zeroFill e) ↔ monthlyBefore a e) ∧
      (yearlyBefore (zeroFill e) a ↔ yearlyBefore e a) ∧
      (yearlyBefore a (zeroFill e) ↔ yearlyBefore a e) :=
  fun _ _ => ⟨⟨rfl, rfl, rfl⟩, Iff.rfl, Iff.rfl, Iff.rfl, Iff.rfl⟩

/-- C7: the rank functions are deterministic, and the sort is stable: a list
whose entries all carry equal sort keys comes out in the input's relative
order (the records, ignoring the rank annotation, are unchanged). -/
theorem ranking_deterministic_and_stable :
    ∀ l : List LeaderboardEntry,
      ((∀ x ∈ l, ∀ y ∈ l, mPct x = mPct y ∧ mAch x = mAch y) →
        (processMonthlyRanks l).map eraseRank = l.map eraseRank) ∧
      ((∀ x ∈ l, ∀ y ∈ l, yPts x = yPts y) →
        (processYearlyRanks l).map eraseRank = l.map eraseRank) ∧
      (∀ l2, l = l2 →
        processMonthlyRanks l = processMonthlyRanks l2 ∧
        processYearlyRanks l = processYearlyRanks l2) := by
  intro l
  refine ⟨fun h => ?_, fun h => ?_, fun l2 hl => by rw [hl]; exact ⟨rfl, rfl⟩⟩
  · have hall : ∀ x ∈ l, ∀ y ∈ l, monthlyBefore x y := by
      intro x hx y hy
      rcases h x hx y hy with ⟨hp, ha⟩
      exact Or.inr ⟨hp, le_of_eq ha.symm⟩
    rw [processMonthlyRanks_map_eraseRank,
      insertionSort_of_forall monthlyBefore l hall]
  · have hall : ∀ x ∈ l, ∀ y ∈ l, yearlyBefore x y := by
      intro x hx y hy
      exact le_of_eq (h x hx y hy).symm
    rw [processYearlyRanks_map_eraseRank,
      insertionSort_of_forall yearlyBefore l hall]

/-- C7 witness: two monthly entries with identical keys stay in input
order (and so do two yearly entries). -/
theorem ranking_stable_witness :
    (processMonthlyRanks
      [{ username := "w1", completionPercentage := some 10,
         completedAchievements := some 2 },
       { username := "w2", completionPercentage := some 10,
         completedAchievements := some 2 }]).map eraseRank =
      ([{ username := "w1", completionPercentage := some 10,
          completedAchievements := some 2 },
        { username := "w2", completionPercentage := some 10,
          completedAchievements := some 2 }] :
        List LeaderboardEntry).map eraseRank ∧
    (processYearlyRanks
      [{ username := "w1", points := some 7 },
       { username := "w2", points := some 7 }]).map eraseRank =
      ([{ username := "w1", points := some 7 },
        { username := "w2", points := some 7 }] :
        List LeaderboardEntry).map eraseRank :=
  ⟨(ranking_deterministic_and_stable _).1 (by decide),
   (ranking_deterministic_and_stable _).2.1 (by decide)⟩

/-- C9: the monthly handler's completion percentage is the two-decimal
rounding of `completed / totalAchievements * 100` when the total is
positive, and exactly `0` when the total is zero; the guarded value is
always a well-defined rational in `[0, 100]` (for `completed ≤ total`),
never an overflow or an undefined division result. -/
theorem completion_percentage_guarded :
    ∀ completed total : ℕ,
      (total = 0 → computeCompletionPercentage completed total = 0) ∧
      (0 < total →
        computeCompletionPercentage completed total =
          round2 ((completed : ℚ) / (total : ℚ) * 100)) ∧
      0 ≤ computeCompletionPercentage completed total ∧
      (completed ≤ total → computeCompletionPercentage completed total ≤ 100) := by
  intro completed total
  refine ⟨fun h0 => by simp [computeCompletionPercentage, h0],
    fun hpos => by simp [computeCompletionPercentage, hpos], ?_, ?_⟩
  · unfold computeCompletionPercentage
    split
    · rename_i hpos
      unfold round2
      have hx : (0 : ℚ) ≤ (completed : ℚ) / (total : ℚ) * 100 := by positivity
      have hz : (0 : ℤ) ≤ round ((completed : ℚ) / (total : ℚ) * 100 * 100) := by
        rw [round_eq]
        refine Int.floor_nonneg.mpr ?_
        have : (0 : ℚ) ≤ (completed : ℚ) / (total : ℚ) * 100 * 100 := by positivity
        linarith
      have : (0 : ℚ) ≤ (round ((completed : ℚ) / (total : ℚ) * 100 * 100) : ℚ) :=
        Int.cast_nonneg.mpr hz
      positivity
    · exact le_refl 0
  · intro hle
    unfold computeCompletionPercentage
    split
    · rename_i hpos
      unfold round2
      have htpos : (0 : ℚ) < (total : ℚ) := by exact_mod_cast hpos
      have hfrac : (completed : ℚ) / (total : ℚ) ≤ 1 := by
        rw [div_le_one htpos]
        exact_mod_cast hle
      have hx : (completed : ℚ) / (total : ℚ) * 100 ≤ 100 := by nlinarith
      have hz : round ((completed : ℚ) / (total : ℚ) * 100 * 100) ≤ 10000 := by
        rw [round_eq]
        have hlt : (completed : ℚ) / (total : ℚ) * 100 * 100 + 1 / 2 <
            ((10001 : ℤ) : ℚ) := by push_cast; nlinarith
        have := Int.floor_lt.mpr hlt
        omega
      have hzq : ((round ((completed : ℚ) / (total : ℚ) * 100 * 100)) : ℚ) ≤ 10000 := by
        exact_mod_cast hz
      rw [div_le_iff₀ (by norm_num : (0 : ℚ) < 100)]
      linarith
    · norm_num

/-- C9 witness: one achievement out of two gives exactly 50 percent, inside
the guaranteed bounds. -/
theorem completion_percentage_witness :
    computeCompletionPercentage 1 2 =
      round2 ((1 : ℚ) / (2 : ℚ) * 100) ∧
    0 ≤ computeCompletionPercentage 1 2 ∧
    computeCompletionPercentage 1 2 ≤ 100 :=
  ⟨(completion_percentage_guarded 1 2).2.1 (by decide),
   (completion_percentage_guarded 1 2).2.2.1,
   (completion_percentage_guarded 1 2).2.2.2 (by decide)⟩

/-- C10: both handler responses carry at most the first ten sorted
participants in `leaderboard` (a prefix of the sorted sequence), and
`additionalParticipants` is exactly the usernames of all remaining sorted
participants in sorted order. -/
theorem responses_slice_sorted_participants :
    ∀ (results : List MonthlyParticipant) (users : List YearlyUser),
      (monthlyLeaderboardResponse results).leaderboard.length ≤ 10 ∧
      (monthlyLeaderboardResponse results).leaderboard ++
          (sortedMonthlyUsers results).drop 10 = sortedMonthlyUsers results ∧
      (monthlyLeaderboardResponse results).additionalParticipants =
        ((sortedMonthlyUsers results).drop 10).map MonthlyParticipant.username ∧
      (yearlyLeaderboardResponse users).leaderboard.length ≤ 10 ∧
      (yearlyLeaderboardResponse users).leaderboard ++
          (yearlyLeaderboardList users).drop 10 = yearlyLeaderboardList users ∧
      (yearlyLeaderboardResponse users).additionalParticipants =
        ((yearlyLeaderboardList users).drop 10).map YearlyUser.username := by
  intro results users
  exact ⟨List.length_take_le 10 _, List.take_append_drop 10 _, rfl,
    List.length_take_le 10 _, List.take_append_drop 10 _, rfl⟩
